import Mathlib

/-!
Verification development for the `one_file_search_engine` repository
(`src/main.py`): a single-file crawl-and-index engine.  Python text values
are embedded as `List Char`; Python's stdlib/SQLite collaborators
(`urllib.parse`, DNS, the network, the HTML parser, SQLite FTS5) are
modelled explicitly where the code's observable behaviour depends on them
and as oracle parameters where it does not.  Every definition is translated
from the source; spec-side formulas used for comparison are clearly marked.
-/

/-- Embedded Python string: a list of characters (Python strings are
sequences of code points; all inputs of interest here are such lists). -/
abbrev Str := List Char

/-- Convert a Lean string literal to the embedded representation. -/
def chars (s : String) : Str := s.data

/-- Python `s.lower()` restricted to ASCII case folding (all text the
program compares is ASCII; `Char.toLower` is exactly ASCII folding). -/
def lowerStr (s : Str) : Str := s.map Char.toLower

/-- Python `s.startswith(p)` / prefix test, structural. -/
def isPrefixStr : Str → Str → Bool
  | [], _ => true
  | _ :: _, [] => false
  | c :: cs, d :: ds => if c = d then isPrefixStr cs ds else false

/-- Python `needle in hay` substring test (`str.__contains__`). -/
def containsStr (needle : Str) : Str → Bool
  | [] => isPrefixStr needle []
  | c :: rest => isPrefixStr needle (c :: rest) || containsStr needle rest

/-- Fuel-driven helper for `countOcc`; the fuel only serves structural
termination and `hay.length` fuel is always sufficient because every step
consumes at least one character of the haystack. -/
def countOccFuel (needle : Str) : Nat → Str → Nat
  | 0, _ => 0
  | _ + 1, [] => 0
  | fuel + 1, c :: rest =>
    if isPrefixStr needle (c :: rest) then
      1 + countOccFuel needle fuel (List.drop (needle.length - 1) rest)
    else
      countOccFuel needle fuel rest

/-- Python `hay.count(needle)` for a non-empty needle: number of
non-overlapping occurrences, scanning left to right. -/
def countOcc (needle hay : Str) : Nat := countOccFuel needle hay.length hay

/-- Python `s.endswith(suffix)`. -/
def endsWithStr (s suffix : Str) : Bool := isPrefixStr suffix.reverse s.reverse

/-- Python `s.strip()` (both-ends whitespace trim). -/
def trimStr (s : Str) : Str :=
  ((s.dropWhile Char.isWhitespace).reverse.dropWhile Char.isWhitespace).reverse

/-- Maximal runs of characters satisfying `p` (helper for the two
whitespace/token splitters below). -/
def gatherRuns (p : Char → Bool) : Str → Str → List Str
  | [], acc => if acc = [] then [] else [acc.reverse]
  | c :: rest, acc =>
    if p c then gatherRuns p rest (c :: acc)
    else if acc = [] then gatherRuns p rest []
    else acc.reverse :: gatherRuns p rest []

/-- Python `s.split()` with no argument, and `[t for t in re.split(r'\s+', s) if t]`:
maximal non-whitespace runs. -/
def splitWs (s : Str) : List Str := gatherRuns (fun c => !c.isWhitespace) s []

/-- Split at every occurrence of `sep`, keeping empty segments (used to
model `str.splitlines` on `\n`-terminated robots bodies; blank segments are
skipped by the parser anyway). -/
def splitOnCharAux (sep : Char) : Str → Str → List Str
  | [], acc => [acc.reverse]
  | c :: rest, acc =>
    if c = sep then acc.reverse :: splitOnCharAux sep rest []
    else splitOnCharAux sep rest (c :: acc)

/-- See `splitOnCharAux`. -/
def splitOnChar (sep : Char) (s : Str) : List Str := splitOnCharAux sep s []

/-- Python `s.split(sep, 1)` when `sep` occurs: `some (before, after)` at the
first occurrence, `none` when `sep ∉ s`. -/
def breakAtChar (sep : Char) : Str → Option (Str × Str)
  | [] => none
  | c :: rest =>
    if c = sep then some ([], rest)
    else
      match breakAtChar sep rest with
      | none => none
      | some (pre, post) => some (c :: pre, post)

/-- Python `s.split(sep, 1)[0]`: everything before the first `sep` (the
whole string when absent).  Models `raw.split('#', 1)[0]`. -/
def takeUntilChar (sep : Char) : Str → Str
  | [] => []
  | c :: rest => if c = sep then [] else c :: takeUntilChar sep rest

/-- Lexicographic strict order on embedded strings by code point, as Python
compares strings. -/
def strLt : Str → Str → Bool
  | [], [] => false
  | [], _ :: _ => true
  | _ :: _, [] => false
  | c :: cs, d :: ds => if c < d then true else if c = d then strLt cs ds else false

/-- Non-strict lexicographic order (`a <= b` on Python strings). -/
def strLe (a b : Str) : Bool := strLt a b || decide (a = b)

/-- Snippet construction, from `crawl_url` in src/main.py:
`snippet = (fulltext[:500] + "...") if len(fulltext) > 500 else fulltext`. -/
def makeSnippet (fulltext : Str) : Str :=
  if 500 < fulltext.length then fulltext.take 500 ++ chars "..." else fulltext

/-- Robots policy, from `_parse_robots_text` in src/main.py:
`rules = {'disallow': [], 'delay': 0}`.  The delay is a Python float,
embedded as a rational. -/
structure RobotsRules where
  disallow : List Str
  delay : ℚ
deriving DecidableEq

/-- The initial/empty policy `{'disallow': [], 'delay': 0}`. -/
def emptyRules : RobotsRules := ⟨[], 0⟩

/-- State threaded through the line loop of `_parse_robots_text`:
`current_agents` and the rules accumulated so far. -/
structure RParseState where
  agents : List Str
  rules : RobotsRules
deriving DecidableEq

/-- Digits-only test for the numeric literal model. -/
def allDigits (s : Str) : Bool := s.all (·.isDigit)

/-- Value of a digit string (most significant first). -/
def natOfDigits (s : Str) : Nat := s.foldl (fun n c => 10 * n + (c.toNat - '0'.toNat)) 0

/-- Models Python `float(v)` on plain decimal literals (optional sign,
digits, optional fractional part): the only numeric forms a `Crawl-delay`
line meaningfully carries.  Exotic accepted spellings of `float`
(exponents, `inf`, `nan`, underscores) are outside the modelled input
space. -/
def parseUnsignedDecimal (body : Str) : Option ℚ :=
  match breakAtChar '.' body with
  | none =>
    if body ≠ [] ∧ allDigits body then some (natOfDigits body : ℚ) else none
  | some (ip, fp) =>
    if (ip ≠ [] ∨ fp ≠ []) ∧ allDigits ip ∧ allDigits fp then
      some ((natOfDigits ip : ℚ) + (natOfDigits fp : ℚ) / (10 : ℚ) ^ fp.length)
    else none

/-- Sign handling of the numeric model (see `parseUnsignedDecimal`). -/
def parseDelayNum (s : Str) : Option ℚ :=
  match s with
  | '-' :: r => (parseUnsignedDecimal r).map (fun q => -q)
  | '+' :: r => parseUnsignedDecimal r
  | r => parseUnsignedDecimal r

/-- Agent-group match from `_parse_robots_text`:
`a == '*' or a.lower() in agent_name.lower()`. -/
def agentMatches (agentName a : Str) : Bool :=
  decide (a = chars "*") || containsStr (lowerStr a) (lowerStr agentName)

/-- One iteration of the `for raw in lines` loop of `_parse_robots_text`:
strip the `#` comment and surrounding whitespace, skip blank or colon-free
lines, split at the first colon, and dispatch on the lower-cased key. -/
def robotsLineStep (agentName : Str) (st : RParseState) (raw : Str) : RParseState :=
  let line := trimStr (takeUntilChar '#' raw)
  if line = [] then st
  else
    match breakAtChar ':' line with
    | none => st
    | some (k0, v0) =>
      let k := lowerStr (trimStr k0)
      let v := trimStr v0
      if k = chars "user-agent" then { st with agents := splitWs v }
      else if k = chars "disallow" then
        if st.agents = [] then st
        else
          let entry := if v = [] then chars "/" else v
          let dis :=
            st.agents.foldl
              (fun d a => if agentMatches agentName a then d ++ [entry] else d)
              st.rules.disallow
          { st with rules := { st.rules with disallow := dis } }
      else if k = chars "crawl-delay" then
        match parseDelayNum v with
        | none => st
        | some val =>
          let dl :=
            st.agents.foldl
              (fun dl a => if agentMatches agentName a then max dl val else dl)
              st.rules.delay
          { st with rules := { st.rules with delay := dl } }
      else st

/-- Embedding of `_parse_robots_text(txt, agent_name)` from src/main.py
(`splitlines` modelled as splitting at newline characters). -/
def parse_robots_text (txt agentName : Str) : RobotsRules :=
  ((splitOnChar '\n' txt).foldl (robotsLineStep agentName) ⟨[], emptyRules⟩).rules

/-- Spec-comparison collector for claim C8: the same line loop as
`parse_robots_text`, but instead of folding `max` it records every
successfully parsed `Crawl-delay` value whose current agent group matches.
The state pairs the genuine parser state with the collected values. -/
def robotsDelayCollectStep (agentName : Str) (p : RParseState × List ℚ) (raw : Str) :
    RParseState × List ℚ :=
  let st := p.1
  let line := trimStr (takeUntilChar '#' raw)
  let vals : List ℚ :=
    if line = [] then []
    else
      match breakAtChar ':' line with
      | none => []
      | some (k0, v0) =>
        let k := lowerStr (trimStr k0)
        let v := trimStr v0
        if k = chars "crawl-delay" then
          match parseDelayNum v with
          | none => []
          | some val => if st.agents.any (agentMatches agentName) then [val] else []
        else []
  (robotsLineStep agentName st raw, p.2 ++ vals)

/-- The `Crawl-delay` values of all matching groups of a robots body. -/
def matchedDelays (txt agentName : Str) : List ℚ :=
  ((splitOnChar '\n' txt).foldl (robotsDelayCollectStep agentName) (⟨[], emptyRules⟩, [])).2

/-- Network effects a crawl may perform (DNS resolution inside
`host_is_private`, a robots.txt fetch inside `fetch_robots`, the page GET
inside `crawl_url`). -/
inductive NetEffect where
  | dns : Str → NetEffect
  | robotsFetch : Str → Str → NetEffect
  | pageFetch : Str → NetEffect
deriving DecidableEq

/-- The robots cache `robots_cache`: `(scheme, host) -> (fetched_at, rules)`,
time embedded as a rational. -/
abbrev RobotsCache := List ((Str × Str) × (ℚ × RobotsRules))

/-- Python dict lookup `robots_cache.get(key)`. -/
def cacheFind (c : RobotsCache) (key : Str × Str) : Option (ℚ × RobotsRules) :=
  (c.find? (fun e => decide (e.1 = key))).map (·.2)

/-- Python dict assignment `robots_cache[key] = value` (overwrite). -/
def cacheInsert (c : RobotsCache) (key : Str × Str) (val : ℚ × RobotsRules) : RobotsCache :=
  (c.filter (fun e => !decide (e.1 = key))) ++ [(key, val)]

/-- `ROBOTS_CACHE_TTL` default from `DEFAULT_CONFIG`. -/
def robotsCacheTTL : ℚ := 3600

/-- `USER_AGENT` default from `DEFAULT_CONFIG`. -/
def userAgentStr : Str :=
  chars "Mozilla/5.0 (compatible; one_file_search_engine_bot/1.0; +https://github.com/xhdndmm/one_file_search_engine)"

/-- Embedding of `fetch_robots(host, scheme)` when no retry can happen
(`scheme != 'https'`, or the body of the recursive retry call, whose own
`scheme` is `'http'`): cache check, fetch via the oracle (`none` = any
fetch exception), parse on success, and on failure fall through with the
default empty rules; either way the result is cached under
`(scheme, host)` and returned.  The oracle stands for the network +
`urllib`; decode errors cannot raise (`errors='ignore'`) and the parser is
total, so only a fetch failure reaches the `except` branch. -/
def fetchRobotsNoRetry (oracle : Str → Str → Option Str) (agentName : Str) (now : ℚ)
    (cache : RobotsCache) (host scheme : Str) : RobotsRules × RobotsCache × List NetEffect :=
  let hit : Option RobotsRules :=
    match cacheFind cache (scheme, host) with
    | some (t, rules) => if now - t < robotsCacheTTL then some rules else none
    | none => none
  match hit with
  | some rules => (rules, cache, [])
  | none =>
    match oracle scheme host with
    | some txt =>
      let rules := parse_robots_text txt agentName
      (rules, cacheInsert cache (scheme, host) (now, rules), [.robotsFetch scheme host])
    | none =>
      (emptyRules, cacheInsert cache (scheme, host) (now, emptyRules), [.robotsFetch scheme host])

/-- Embedding of `fetch_robots(host, scheme)` from src/main.py: like
`fetchRobotsNoRetry`, but on fetch failure with `scheme == 'https'` it
returns the result of the recursive call `fetch_robots(host, 'http')`
directly (so nothing is cached under the https key in that case). -/
def fetch_robots (oracle : Str → Str → Option Str) (agentName : Str) (now : ℚ)
    (cache : RobotsCache) (host scheme : Str) : RobotsRules × RobotsCache × List NetEffect :=
  let hit : Option RobotsRules :=
    match cacheFind cache (scheme, host) with
    | some (t, rules) => if now - t < robotsCacheTTL then some rules else none
    | none => none
  match hit with
  | some rules => (rules, cache, [])
  | none =>
    match oracle scheme host with
    | some txt =>
      let rules := parse_robots_text txt agentName
      (rules, cacheInsert cache (scheme, host) (now, rules), [.robotsFetch scheme host])
    | none =>
      if scheme = chars "https" then
        let r := fetchRobotsNoRetry oracle agentName now cache host (chars "http")
        (r.1, r.2.1, .robotsFetch scheme host :: r.2.2)
      else
        (emptyRules, cacheInsert cache (scheme, host) (now, emptyRules), [.robotsFetch scheme host])

/-- The pure allowance loop of `is_allowed_by_robots` (src/main.py lines
260-265): `False` as soon as some disallowed prefix is `'/'` or the path
starts with it, else `True`. -/
def robotsPathAllowed (path : Str) (rules : RobotsRules) : Bool :=
  rules.disallow.all (fun dis =>
    if dis = chars "/" then false
    else if isPrefixStr dis path then false
    else true)


/-- Result of `urllib.parse.urlparse(url)` restricted to the attributes the
program reads.  `urlparse` is Python stdlib, so the parsed form is the
embedding's input type; `scheme` is `[]` when absent, `hostname` is the
lower-cased host without port (`[]` when absent), `raw` is the original
URL string handed to the network layer. -/
structure PyUrl where
  raw : Str
  scheme : Str
  netloc : Str
  hostname : Str
  path : Str
deriving DecidableEq

/-- `ALLOWED_SCHEMES` default from `DEFAULT_CONFIG`. -/
def defaultAllowedSchemes : List Str := [chars "http", chars "https"]

/-- The media extension tuple of `is_media_url`. -/
def mediaExts : List Str :=
  [chars ".jpg", chars ".jpeg", chars ".png", chars ".gif", chars ".bmp", chars ".webp",
   chars ".mp4", chars ".mp3", chars ".ogg", chars ".avi", chars ".mov", chars ".wmv",
   chars ".flv", chars ".mkv", chars ".pdf", chars ".zip", chars ".rar"]

/-- Embedding of `is_media_url(url)` from src/main.py:
`any(url.lower().endswith(ext) for ext in media_ext)`. -/
def is_media_url (url : Str) : Bool :=
  mediaExts.any (fun ext => endsWithStr (lowerStr url) ext)

/-- Typed error kinds of the crawl pipeline.  The code raises `ValueError`
with distinct messages; the spec names them, and the constructors follow
the spec's names.  `fetchFailed` stands for all fetch-stage failures
(content type, HTTP status, transport, timeout), which no claim under
proof distinguishes. -/
inductive CrawlError where
  | invalidScheme
  | privateNetworkBlocked
  | mediaSkipped
  | robotsDisallowed
  | fetchFailed
deriving DecidableEq

/-- Embedding of `validate_url_for_fetch(url)` from src/main.py, over the
parsed URL, parameterised by the configuration (`ALLOWED_SCHEMES`,
`DISALLOW_PRIVATE`) and by `host_is_private` as an oracle (its body is
`ipaddress`/`socket.getaddrinfo` stdlib work; its DNS round trip is the
recorded effect).  Returns the decision together with the network effects
performed. -/
def validate_url_for_fetch (allowedSchemes : List Str) (disallowPrivate : Bool)
    (hostPrivate : Str → Bool) (u : PyUrl) : Except CrawlError Unit × List NetEffect :=
  if u.scheme = [] ∨ u.scheme ∉ allowedSchemes then (.error .invalidScheme, [])
  else
    let host := u.hostname
    if disallowPrivate ∧ host ≠ [] then
      if hostPrivate host then (.error .privateNetworkBlocked, [.dns host])
      else if is_media_url u.path then (.error .mediaSkipped, [.dns host])
      else (.ok (), [.dns host])
    else if is_media_url u.path then (.error .mediaSkipped, [])
    else (.ok (), [])

/-- Embedding of `is_allowed_by_robots(url)` from src/main.py: fetch (or
read from cache) the policy for `(p.scheme or 'https', p.netloc)` and run
the prefix loop over `p.path or '/'`. -/
def is_allowed_by_robots (oracle : Str → Str → Option Str) (agentName : Str) (now : ℚ)
    (cache : RobotsCache) (u : PyUrl) :
    (Bool × RobotsRules) × RobotsCache × List NetEffect :=
  let host := u.netloc
  let scheme := if u.scheme = [] then chars "https" else u.scheme
  let r := fetch_robots oracle agentName now cache host scheme
  let path := if u.path = [] then chars "/" else u.path
  ((robotsPathAllowed path r.1, r.1), r.2.1, r.2.2)

/-- The record a successful crawl returns (the dict at the end of
`crawl_url`). -/
structure PageInfo where
  url : Str
  title : Str
  keywords : Str
  description : Str
  snippet : Str
deriving DecidableEq

/-- Oracles for the two stdlib `HTMLParser` passes of `crawl_url`
(`HeadMetaParser`, `TextExtractor`): callback-driven parsing with no
network effect.  `description` models
`meta.get("description","") or meta.get("og:description","")`. -/
structure ExtractModel where
  title : Str → Str
  keywords : Str → Str
  description : Str → Str
  text : Str → Str

/-- Environment of a crawl: configuration, the `host_is_private` oracle,
the robots fetch oracle, the page fetch oracle (`none`-free: a `.error`
models any of the fetch-stage `ValueError`s raised in `crawl_url`), the
extraction model, the clock and the robots cache. -/
structure CrawlEnv where
  allowedSchemes : List Str
  disallowPrivate : Bool
  hostPrivate : Str → Bool
  robotsOracle : Str → Str → Option Str
  agentName : Str
  pageOracle : Str → Except CrawlError Str
  extract : ExtractModel
  now : ℚ
  cache : RobotsCache

/-- Embedding of `crawl_url(url)` from src/main.py: validate, robots
check, politeness sleep (no network effect), fetch, extract, assemble the
record.  Returns the result and the ordered network effects. -/
def crawl_url (env : CrawlEnv) (u : PyUrl) : Except CrawlError PageInfo × List NetEffect :=
  match validate_url_for_fetch env.allowedSchemes env.disallowPrivate env.hostPrivate u with
  | (.error e, eff) => (.error e, eff)
  | (.ok _, eff1) =>
    let ar := is_allowed_by_robots env.robotsOracle env.agentName env.now env.cache u
    let allowed := ar.1.1
    let eff2 := ar.2.2
    if allowed then
      match env.pageOracle u.raw with
      | .error e => (.error e, eff1 ++ eff2 ++ [.pageFetch u.raw])
      | .ok html =>
        let info : PageInfo :=
          { url := u.raw
            title := trimStr (env.extract.title html)
            keywords := env.extract.keywords html
            description := env.extract.description html
            snippet := makeSnippet (env.extract.text html) }
        (.ok info, eff1 ++ eff2 ++ [.pageFetch u.raw])
    else (.error .robotsDisallowed, eff1 ++ eff2)

/-- A row of the `sites` table (`init_db`): `id` is the SQLite rowid,
`crawled_at` is nullable in the schema, so it is an `Option`.  The text
columns are always written as strings by `upsert_site`. -/
structure SiteRow where
  id : Nat
  url : Str
  title : Str
  keywords : Str
  description : Str
  snippet : Str
  crawledAt : Option Str
deriving DecidableEq

/-- Python `r['crawled_at'] or ""`: the sort key for a row's timestamp
(`NULL` and the empty string both become the empty string). -/
def tsKey (r : SiteRow) : Str := r.crawledAt.getD []

/-- Per-term score increment of the heuristic scorer (the five `if t in
field: score += w + field.count(t)` blocks, identical at src/main.py lines
496-505 and 534-543); `title` … `url` are the already lower-cased field
values. -/
def termScore (t title keywords desc snippet url : Str) : Nat :=
  (if containsStr t title then 3 + countOcc t title else 0) +
  (if containsStr t keywords then 2 + countOcc t keywords else 0) +
  (if containsStr t desc then 2 + countOcc t desc else 0) +
  (if containsStr t snippet then 1 + countOcc t snippet else 0) +
  (if containsStr t url then 1 + countOcc t url else 0)

/-- Total heuristic score of a row for the token list `qtoks`: the
`score` accumulator of the `for t in qtoks` loop.  The row's fields are
lower-cased exactly as in the code (`(r['title'] or "").lower()` — on the
string-valued rows this program writes, `or ""` is the identity). -/
def scoreRow (qtoks : List Str) (r : SiteRow) : Nat :=
  qtoks.foldl
    (fun score t =>
      score + termScore t (lowerStr r.title) (lowerStr r.keywords)
        (lowerStr r.description) (lowerStr r.snippet) (lowerStr r.url))
    0

/-- The candidate-building loop (`for r in rows: … if score > 0:
candidates.append((score, r))`), kept as the source's append fold. -/
def scanCandidates (qtoks : List Str) (rows : List SiteRow) : List (Nat × SiteRow) :=
  rows.foldl
    (fun cand r => if 0 < scoreRow qtoks r then cand ++ [(scoreRow qtoks r, r)] else cand)
    []

/-- The comparison realised by
`candidates.sort(key=lambda x: (-x[0], x[1]['crawled_at'] or ""))`:
ascending in the key `(-score, timestamp)`, i.e. descending score first,
then ascending timestamp. -/
def candLe (a b : Nat × SiteRow) : Bool :=
  if b.1 < a.1 then true
  else if a.1 = b.1 then strLe (tsKey a.2) (tsKey b.2)
  else false

/-- Python's `list.sort` is a stable sort by the key; a stable sort by a
total preorder is extensionally unique, so the structural
`List.insertionSort` (stable in the same sense) embeds it. -/
def sortCandidates (cand : List (Nat × SiteRow)) : List (Nat × SiteRow) :=
  List.insertionSort (fun a b => candLe a b = true) cand

/-- One output dict of the heuristic paths (and of the FTS path, whose
bm25 score is a float, hence `score : ℚ`): `title` defaults to the url
when empty; the other `or ""` defaults are the identity on strings. -/
structure SearchResult where
  url : Str
  title : Str
  keywords : Str
  description : Str
  snippet : Str
  crawledAt : Option Str
  score : ℚ
deriving DecidableEq

/-- The result-dict assembly of the heuristic paths (src/main.py lines
509-518 and 547-556). -/
def toResult (p : Nat × SiteRow) : SearchResult :=
  { url := p.2.url
    title := if p.2.title = [] then p.2.url else p.2.title
    keywords := p.2.keywords
    description := p.2.description
    snippet := p.2.snippet
    crawledAt := p.2.crawledAt
    score := (p.1 : ℚ) }

/-- The shared heuristic pipeline over a candidate row set: score, drop
zero scores, stable-sort by `(-score, timestamp)`, truncate to `limit`. -/
def heuristicRank (qtoks : List Str) (rows : List SiteRow) (limit : Nat) :
    List (Nat × SiteRow) :=
  (sortCandidates (scanCandidates qtoks rows)).take limit

/-- The degraded-index path of `search_sites` (lines 477-520) applied to
its joined candidate rows: note `qtoks = terms` there — the raw,
not lower-cased, query tokens. -/
def degradedPathResults (terms : List Str) (rows : List SiteRow) (limit : Nat) :
    List SearchResult :=
  (heuristicRank terms rows limit).map toResult

/-- The full-scan path of `search_sites` (lines 523-557) applied to the
scanned rows: here `qtoks = [t.lower() for t in terms]`. -/
def fullScanResults (terms : List Str) (rows : List SiteRow) (limit : Nat) :
    List SearchResult :=
  (heuristicRank (terms.map lowerStr) rows limit).map toResult

/-- The column values a single FTS insert carries (the five indexed
columns of `sites_fts`). -/
structure FtsFields where
  url : Str
  title : Str
  keywords : Str
  description : Str
  snippet : Str
deriving DecidableEq

/-- The indexed columns of a `sites` row. -/
def rowFtsFields (r : SiteRow) : FtsFields :=
  ⟨r.url, r.title, r.keywords, r.description, r.snippet⟩

/-- Database state: the `sites` table, the FTS5 inverted index, and the
next rowid SQLite would assign.  `sites_fts` is declared in `init_db` with
`content='sites', content_rowid='id'` (an external-content table), so the
index stores only postings; each element `(rowid, fields)` below stands
for the postings contributed by one `INSERT INTO sites_fts(rowid, …)`
with those explicit values. -/
structure DbState where
  sites : List SiteRow
  fts : List (Nat × FtsFields)
  nextId : Nat
deriving DecidableEq

/-- The empty database after `init_db` (SQLite rowids start at 1). -/
def emptyDb : DbState := ⟨[], [], 1⟩

/-- `SELECT … FROM sites WHERE url=?` (url is UNIQUE, so first match). -/
def sitesFindByUrl (sites : List SiteRow) (u : Str) : Option SiteRow :=
  sites.find? (fun r => decide (r.url = u))

/-- `SELECT … FROM sites WHERE id=?` — also how the external-content FTS
table reads its column values for a rowid. -/
def sitesFindById (sites : List SiteRow) (rowid : Nat) : Option SiteRow :=
  sites.find? (fun r => decide (r.id = rowid))

/-- SQLite FTS5 semantics of `DELETE FROM sites_fts WHERE rowid=?` on an
external-content table: the old values to un-index are read from the
content table *at delete time*; postings matching those values are
removed, postings inserted under different values stay behind, and when
the content row is gone nothing can be located, so nothing is removed. -/
def ftsDeleteByRowid (sites : List SiteRow) (fts : List (Nat × FtsFields)) (rowid : Nat) :
    List (Nat × FtsFields) :=
  match sitesFindById sites rowid with
  | none => fts
  | some r => fts.filter (fun e => !decide (e.1 = rowid ∧ e.2 = rowFtsFields r))

/-- SQLite FTS5 semantics of `DELETE FROM sites_fts WHERE url=?` on an
external-content table: a non-MATCH scan of the virtual table is driven by
the content table, so only rowids that still exist in `sites` with that
`url` are visited, each un-indexed via its current content values. -/
def ftsDeleteByUrl (sites : List SiteRow) (fts : List (Nat × FtsFields)) (u : Str) :
    List (Nat × FtsFields) :=
  sites.foldl (fun acc r => if r.url = u then ftsDeleteByRowid sites acc r.id else acc) fts

/-- Embedding of `upsert_site(info)` from src/main.py: `INSERT INTO sites`
(raising `IntegrityError` when the UNIQUE `url` exists) with an
`INSERT INTO sites_fts` of the same values; on conflict, `UPDATE sites`
first, then delete the FTS row by rowid and re-insert the new values —
the order the code uses, with the content row already updated. -/
def upsert_site (now : Str) (db : DbState) (info : PageInfo) : DbState :=
  match sitesFindByUrl db.sites info.url with
  | none =>
    let row : SiteRow :=
      { id := db.nextId, url := info.url, title := info.title, keywords := info.keywords
        description := info.description, snippet := info.snippet, crawledAt := some now }
    { sites := db.sites ++ [row]
      fts := db.fts ++ [(db.nextId, rowFtsFields row)]
      nextId := db.nextId + 1 }
  | some old =>
    let sites2 := db.sites.map (fun r =>
      if r.url = info.url then
        { r with title := info.title, keywords := info.keywords
                 description := info.description, snippet := info.snippet
                 crawledAt := some now }
      else r)
    let newFields : FtsFields :=
      ⟨info.url, info.title, info.keywords, info.description, info.snippet⟩
    { sites := sites2
      fts := ftsDeleteByRowid sites2 db.fts old.id ++ [(old.id, newFields)]
      nextId := db.nextId }

/-- Embedding of the body of `admin_delete_site` (src/main.py lines
922-931): `DELETE FROM sites WHERE url=?`, then
`DELETE FROM sites_fts WHERE url=?` against the already-shrunk content
table. -/
def admin_delete_site (db : DbState) (u : Str) : DbState :=
  let sites2 := db.sites.filter (fun r => !decide (r.url = u))
  { db with sites := sites2, fts := ftsDeleteByUrl sites2 db.fts u }

/-- Maximal alphanumeric runs: the FTS5 `unicode61` tokenizer restricted
to the ASCII text this corpus carries (it separates tokens at every
non-alphanumeric character and case-folds). -/
def ftsTokens (s : Str) : List Str := gatherRuns Char.isAlphanum (lowerStr s) []

/-- Does a field contain a token with the (case-folded) term as prefix?
This is what one `term*` prefix query matches inside one column. -/
def fieldHasPrefixToken (t field : Str) : Bool :=
  (ftsTokens field).any (fun tok => isPrefixStr (lowerStr t) tok)

/-- One posting group matches a term when any of the five indexed columns
does. -/
def ftsFieldsMatchTerm (t : Str) (f : FtsFields) : Bool :=
  fieldHasPrefixToken t f.url || fieldHasPrefixToken t f.title ||
  fieldHasPrefixToken t f.keywords || fieldHasPrefixToken t f.description ||
  fieldHasPrefixToken t f.snippet

/-- `sites_fts MATCH ?` with the query `" ".join(t + "*" for t in terms)`:
an implicit conjunction of prefix terms. -/
def ftsFieldsMatch (terms : List Str) (f : FtsFields) : Bool :=
  terms.all (fun t => ftsFieldsMatchTerm t f)

/-- First-occurrence deduplication (a rowid appears once in a MATCH scan
however many posting groups feed it). -/
def dedupNats : List Nat → List Nat → List Nat
  | [], _ => []
  | x :: xs, seen => if x ∈ seen then dedupNats xs seen else x :: dedupNats xs (x :: seen)

/-- The rowids the MATCH scan yields, in index order. -/
def ftsMatchRowids (fts : List (Nat × FtsFields)) (terms : List Str) : List Nat :=
  dedupNats ((fts.filter (fun e => ftsFieldsMatch terms e.2)).map (·.1)) []

/-- `JOIN sites s ON s.id = sites_fts.rowid`: keep only rowids that still
resolve to a record, pairing them with the record. -/
def ftsJoinSites (db : DbState) (terms : List Str) : List (Nat × SiteRow) :=
  (ftsMatchRowids db.fts terms).filterMap
    (fun rid => (sitesFindById db.sites rid).map (fun r => (rid, r)))

/-- The FTS result-dict assembly (src/main.py lines 464-473), score from
`bm25(sites_fts)`. -/
def toFtsResult (bm25 : Nat → ℚ) (p : Nat × SiteRow) : SearchResult :=
  { url := p.2.url
    title := if p.2.title = [] then p.2.url else p.2.title
    keywords := p.2.keywords
    description := p.2.description
    snippet := p.2.snippet
    crawledAt := p.2.crawledAt
    score := bm25 p.1 }

/-- The accelerated tier of `search_sites` (lines 454-475): MATCH, join,
`ORDER BY score ASC LIMIT ?`, map to dicts.  `bm25` is SQLite's ranking
statistic, an opaque per-rowid value here. -/
def ftsTierResults (bm25 : Nat → ℚ) (db : DbState) (terms : List Str) (limit : Nat) :
    List SearchResult :=
  ((List.insertionSort (fun a b => bm25 a.1 ≤ bm25 b.1) (ftsJoinSites db terms)).take
    limit).map (toFtsResult bm25)

/-- Embedding of `search_sites(query, limit)` from src/main.py.  `ftsOk`
models whether the FTS5 table exists at all (its absence makes both MATCH
queries raise `OperationalError`), `bm25Ok` whether the `bm25()` function
is available (its absence sends the first query into the degraded-index
branch while the plain MATCH still works).  Each non-empty tier's result
is returned, otherwise control falls through to the full scan of at most
1000 rows. -/
def search_sites (ftsOk bm25Ok : Bool) (bm25 : Nat → ℚ) (db : DbState)
    (query : Str) (limit : Nat) : List SearchResult :=
  let qRaw := trimStr query
  if qRaw = [] then []
  else
    let terms := splitWs qRaw
    let fullScan := fullScanResults terms (db.sites.take 1000) limit
    if ftsOk then
      if bm25Ok then
        let r1 := ftsTierResults bm25 db terms limit
        if r1 = [] then fullScan else r1
      else
        let rows := (ftsJoinSites db terms).map (·.2)
        let r2 := degradedPathResults terms (rows.take 500) limit
        if r2 = [] then fullScan else r2
    else fullScan

/-- Timestamp key of a result dict (`r.crawled_at or ""`). -/
def resTsKey (r : SearchResult) : Str := r.crawledAt.getD []

/-- The order the code actually establishes on a result sequence:
descending score, ties by ascending timestamp (missing timestamp keyed as
the empty string, hence first). -/
def codeTieOrder (a b : SearchResult) : Prop :=
  b.score < a.score ∨ (a.score = b.score ∧ strLe (resTsKey a) (resTsKey b) = true)

/-- Spec-comparison order for claim C2, following the spec's words:
descending score, ties by descending crawl timestamp (most recent first,
missing timestamp lowest). -/
def specTieOrder (a b : SearchResult) : Prop :=
  b.score < a.score ∨ (a.score = b.score ∧ strLe (resTsKey b) (resTsKey a) = true)

/-- Spec-comparison scorer for claim C3, following the claim's words:
lower-cased term as substring of lower-cased field, base weight plus 1 per
extra occurrence beyond the first. -/
def claimFieldScore (t field : Str) (w : Nat) : Nat :=
  if containsStr (lowerStr t) (lowerStr field) then
    w + (countOcc (lowerStr t) (lowerStr field) - 1)
  else 0

/-- Spec-comparison total score for claim C3 (sum over terms and fields,
weights title 3, keywords 2, description 2, snippet 1, url 1). -/
def claimScore (terms : List Str) (r : SiteRow) : Nat :=
  (terms.map (fun t =>
    claimFieldScore t r.title 3 + claimFieldScore t r.keywords 2 +
    claimFieldScore t r.description 2 + claimFieldScore t r.snippet 1 +
    claimFieldScore t r.url 1)).sum

/-- Closed-form per-field score of the code's scorer: base weight plus 1
per occurrence including the first, the token compared as given (without
lower-casing it) against the lower-cased field. -/
def codeFieldScore (t field : Str) (w : Nat) : Nat :=
  if containsStr t (lowerStr field) then w + countOcc t (lowerStr field) else 0

/-- Closed-form total of the code's scorer (what `scoreRow` computes). -/
def codeScoreFormula (qtoks : List Str) (r : SiteRow) : Nat :=
  (qtoks.map (fun t =>
    codeFieldScore t r.title 3 + codeFieldScore t r.keywords 2 +
    codeFieldScore t r.description 2 + codeFieldScore t r.snippet 1 +
    codeFieldScore t r.url 1)).sum

/-- Two stored rows with the same title and different timestamps, for the
tie-break counterexample. -/
def exRow1 : SiteRow := ⟨1, chars "u1", chars "apple", [], [], [], some (chars "2024-01-01")⟩

/-- See `exRow1`. -/
def exRow2 : SiteRow := ⟨2, chars "u2", chars "apple", [], [], [], some (chars "2024-02-02")⟩

/-- A row whose title contains the term exactly once, for the weight
counterexample. -/
def exRowA : SiteRow := ⟨1, chars "u", chars "apple", [], [], [], none⟩

/-- The first crawl's record of the delete/upsert scenarios. -/
def exInfo1 : PageInfo := ⟨chars "http://a.com/x", chars "zebraword", [], [], []⟩

/-- A second crawl of the same URL with a different title. -/
def exInfo2 : PageInfo := ⟨chars "http://a.com/x", chars "newword", [], [], []⟩

/-- Database after crawling `exInfo1` into an empty store. -/
def dbAfterCrawl : DbState := upsert_site (chars "2024-01-01T00:00:00Z") emptyDb exInfo1

/-- Database after the admin deletes that URL. -/
def dbAfterDelete : DbState := admin_delete_site dbAfterCrawl (chars "http://a.com/x")

/-- Database after re-crawling the same URL with the new title. -/
def dbAfterRecrawl : DbState := upsert_site (chars "2024-02-02T00:00:00Z") dbAfterCrawl exInfo2

/-- Transitivity of the lexicographic strict order. -/
theorem strLt_trans : ∀ (a b c : Str), strLt a b = true → strLt b c = true → strLt a c = true := by
  intro a
  induction a with
  | nil =>
    intro b c h1 h2
    cases b with
    | nil => simp [strLt] at h1
    | cons d ds =>
      cases c with
      | nil => simp [strLt] at h2
      | cons e es => simp [strLt]
  | cons x xs ih =>
    intro b c h1 h2
    cases b with
    | nil => simp [strLt] at h1
    | cons d ds =>
      cases c with
      | nil => simp [strLt] at h2
      | cons e es =>
        simp only [strLt] at h1 h2 ⊢
        by_cases hxd : x < d
        · by_cases hde : d < e
          · simp [lt_trans hxd hde]
          · rw [if_neg hde] at h2
            by_cases hde2 : d = e
            · subst hde2; simp [hxd]
            · rw [if_neg hde2] at h2; exact absurd h2 (by simp)
        · rw [if_neg hxd] at h1
          by_cases hxd2 : x = d
          · subst hxd2
            rw [if_pos rfl] at h1
            by_cases hxe : x < e
            · simp [hxe]
            · rw [if_neg hxe] at h2 ⊢
              by_cases hxe2 : x = e
              · subst hxe2
                rw [if_pos rfl] at h2 ⊢
                exact ih ds es h1 h2
              · rw [if_neg hxe2] at h2; exact absurd h2 (by simp)
          · rw [if_neg hxd2] at h1; exact absurd h1 (by simp)

/-- Trichotomy of the lexicographic strict order. -/
theorem strLt_trichotomy : ∀ (a b : Str), strLt a b = true ∨ a = b ∨ strLt b a = true := by
  intro a
  induction a with
  | nil =>
    intro b
    cases b with
    | nil => exact Or.inr (Or.inl rfl)
    | cons d ds => exact Or.inl (by simp [strLt])
  | cons x xs ih =>
    intro b
    cases b with
    | nil => exact Or.inr (Or.inr (by simp [strLt]))
    | cons d ds =>
      rcases lt_trichotomy x d with hlt | heq | hgt
      · exact Or.inl (by simp [strLt, hlt])
      · subst heq
        rcases ih ds with h | h | h
        · exact Or.inl (by simp [strLt, lt_irrefl, h])
        · exact Or.inr (Or.inl (by rw [h]))
        · exact Or.inr (Or.inr (by simp [strLt, lt_irrefl, h]))
      · exact Or.inr (Or.inr (by simp [strLt, hgt]))

/-- Reflexivity of the non-strict order. -/
theorem strLe_refl (a : Str) : strLe a a = true := by simp [strLe]

/-- Transitivity of the non-strict order. -/
theorem strLe_trans (a b c : Str) (h1 : strLe a b = true) (h2 : strLe b c = true) :
    strLe a c = true := by
  simp only [strLe, Bool.or_eq_true, decide_eq_true_eq] at h1 h2 ⊢
  rcases h1 with h1 | h1
  · rcases h2 with h2 | h2
    · exact Or.inl (strLt_trans a b c h1 h2)
    · subst h2; exact Or.inl h1
  · subst h1; exact h2

/-- Totality of the non-strict order. -/
theorem strLe_total (a b : Str) : strLe a b = true ∨ strLe b a = true := by
  rcases strLt_trichotomy a b with h | h | h
  · exact Or.inl (by simp [strLe, h])
  · subst h; exact Or.inl (strLe_refl a)
  · exact Or.inr (by simp [strLe, h])

/-- Propositional reading of the sort comparison `candLe`. -/
theorem candLe_iff (a b : Nat × SiteRow) :
    candLe a b = true ↔ b.1 < a.1 ∨ (a.1 = b.1 ∧ strLe (tsKey a.2) (tsKey b.2) = true) := by
  unfold candLe
  split_ifs with h1 h2
  · simp [h1]
  · simp [h1, h2]
  · simp [h1, h2]

/-- The sort comparison is total. -/
theorem candLe_total (a b : Nat × SiteRow) : candLe a b = true ∨ candLe b a = true := by
  rcases Nat.lt_trichotomy a.1 b.1 with h | h | h
  · exact Or.inr ((candLe_iff b a).mpr (Or.inl h))
  · rcases strLe_total (tsKey a.2) (tsKey b.2) with hs | hs
    · exact Or.inl ((candLe_iff a b).mpr (Or.inr ⟨h, hs⟩))
    · exact Or.inr ((candLe_iff b a).mpr (Or.inr ⟨h.symm, hs⟩))
  · exact Or.inl ((candLe_iff a b).mpr (Or.inl h))

/-- The sort comparison is transitive. -/
theorem candLe_trans (a b c : Nat × SiteRow) (h1 : candLe a b = true) (h2 : candLe b c = true) :
    candLe a c = true := by
  rw [candLe_iff] at h1 h2 ⊢
  rcases h1 with h1 | ⟨h1e, h1s⟩
  · rcases h2 with h2 | ⟨h2e, h2s⟩
    · exact Or.inl (Nat.lt_trans h2 h1)
    · exact Or.inl (h2e ▸ h1)
  · rcases h2 with h2 | ⟨h2e, h2s⟩
    · exact Or.inl (h1e ▸ h2)
    · exact Or.inr ⟨h1e.trans h2e, strLe_trans _ _ _ h1s h2s⟩

/-- The sort comparison transports along `toResult` to the result order. -/
theorem candLe_codeTieOrder {a b : Nat × SiteRow} (h : candLe a b = true) :
    codeTieOrder (toResult a) (toResult b) := by
  rw [candLe_iff] at h
  rcases h with h | ⟨he, hs⟩
  · exact Or.inl (by simp only [toResult]; exact_mod_cast h)
  · exact Or.inr ⟨by simp only [toResult]; exact_mod_cast he, hs⟩

/-- Every heuristic result sequence is pairwise in the code's order:
descending score, ties by ascending timestamp. -/
theorem heuristicRank_sorted (qtoks : List Str) (rows : List SiteRow) (limit : Nat) :
    ((heuristicRank qtoks rows limit).map toResult).Pairwise codeTieOrder := by
  rw [List.pairwise_map]
  apply List.Pairwise.sublist (List.take_sublist _ _)
  have hs : List.Pairwise (fun a b => candLe a b = true)
      (sortCandidates (scanCandidates qtoks rows)) := by
    haveI : IsTotal (Nat × SiteRow) (fun a b => candLe a b = true) := ⟨candLe_total⟩
    haveI : IsTrans (Nat × SiteRow) (fun a b => candLe a b = true) := ⟨candLe_trans⟩
    exact List.sorted_insertionSort _ _
  exact hs.imp candLe_codeTieOrder

/-- Folding additions equals the sum of the mapped list. -/
theorem foldlAddSum (f : Str → Nat) : ∀ (l : List Str) (init : Nat),
    l.foldl (fun s t => s + f t) init = init + (l.map f).sum := by
  intro l
  induction l with
  | nil => intro init; simp
  | cons t rest ih =>
    intro init
    simp only [List.foldl_cons, List.map_cons, List.sum_cons]
    rw [ih, Nat.add_assoc]

/-- The accumulator loop of `scoreRow` computes the closed-form sum. -/
theorem scoreRow_eq_formula (qtoks : List Str) (r : SiteRow) :
    scoreRow qtoks r = codeScoreFormula qtoks r := by
  unfold scoreRow codeScoreFormula
  rw [foldlAddSum]
  simp only [Nat.zero_add]
  rfl

/-- Accumulator form of the candidate loop, generalised over the initial
list. -/
theorem scanCandidatesAux (qtoks : List Str) : ∀ (rows : List SiteRow) (acc : List (Nat × SiteRow)),
    rows.foldl
      (fun cand r => if 0 < scoreRow qtoks r then cand ++ [(scoreRow qtoks r, r)] else cand)
      acc =
    acc ++ (rows.map (fun r => (scoreRow qtoks r, r))).filter (fun p => decide (0 < p.1)) := by
  intro rows
  induction rows with
  | nil => intro acc; simp
  | cons r rest ih =>
    intro acc
    simp only [List.foldl_cons, List.map_cons, List.filter_cons]
    by_cases h : 0 < scoreRow qtoks r
    · rw [if_pos h, ih]
      simp [h]
    · rw [if_neg h, ih]
      simp [h]

/-- The candidate loop keeps exactly the rows with positive score. -/
theorem scanCandidates_eq (qtoks : List Str) (rows : List SiteRow) :
    scanCandidates qtoks rows =
      (rows.map (fun r => (scoreRow qtoks r, r))).filter (fun p => decide (0 < p.1)) := by
  unfold scanCandidates
  rw [scanCandidatesAux]
  simp

/-- The per-agent `max` fold of the crawl-delay branch applies the value
once when any agent of the group matches. -/
theorem delayFold (m : Str → Bool) (v : ℚ) : ∀ (agents : List Str) (d : ℚ),
    agents.foldl (fun dl a => if m a then max dl v else dl) d =
      if agents.any m then max d v else d := by
  intro agents
  induction agents with
  | nil => intro d; simp
  | cons a as ih =>
    intro d
    rw [List.foldl_cons, List.any_cons]
    by_cases h : m a
    · rw [if_pos h, ih, h]
      simp only [Bool.true_or, if_true]
      by_cases h2 : as.any m
      · rw [if_pos h2, max_assoc, max_self]
      · rw [if_neg h2]
    · have hf : m a = false := by revert h; cases m a <;> simp
      rw [if_neg h, ih, hf]
      simp only [Bool.false_or]

/-- One line preserves the invariant `delay = fold max 0 (collected)`. -/
theorem collect_delay_step (agentName : Str) (st : RParseState) (L : List ℚ) (raw : Str)
    (hinv : st.rules.delay = L.foldl max 0) :
    (robotsLineStep agentName st raw).rules.delay =
      ((robotsDelayCollectStep agentName (st, L) raw).2).foldl max 0 := by
  have hne1 : ¬(chars "user-agent" = chars "crawl-delay") := by decide
  have hne2 : ¬(chars "disallow" = chars "crawl-delay") := by decide
  have hne3 : ¬(chars "disallow" = chars "user-agent") := by decide
  have hne4 : ¬(chars "crawl-delay" = chars "user-agent") := by decide
  have hne5 : ¬(chars "crawl-delay" = chars "disallow") := by decide
  unfold robotsLineStep robotsDelayCollectStep
  dsimp only
  by_cases hline : trimStr (takeUntilChar '#' raw) = []
  · rw [if_pos hline, if_pos hline]
    simpa using hinv
  · rw [if_neg hline, if_neg hline]
    cases hbr : breakAtChar ':' (trimStr (takeUntilChar '#' raw)) with
    | none => simpa using hinv
    | some kv =>
      rcases kv with ⟨k0, v0⟩
      simp only []
      by_cases hua : lowerStr (trimStr k0) = chars "user-agent"
      · rw [hua, if_pos rfl, if_neg hne1]
        simpa using hinv
      · by_cases hdis : lowerStr (trimStr k0) = chars "disallow"
        · rw [hdis, if_neg hne3, if_pos rfl, if_neg hne2]
          by_cases hag : st.agents = []
          · rw [if_pos hag]
            simpa using hinv
          · rw [if_neg hag]
            simpa using hinv
        · by_cases hcd : lowerStr (trimStr k0) = chars "crawl-delay"
          · rw [hcd, if_neg hne4, if_neg hne5, if_pos rfl]
            cases hpd : parseDelayNum (trimStr v0) with
            | none => simpa using hinv
            | some val =>
              simp only []
              rw [delayFold]
              by_cases hany : st.agents.any (agentMatches agentName)
              · simp [hany, hinv, List.foldl_append]
              · simp [hany, hinv]
          · rw [if_neg hua, if_neg hdis, if_neg hcd, if_neg hcd]
            simpa using hinv

/-- The parser state of the collector fold is the genuine parser state. -/
theorem collectStep_fst (agentName : Str) (p : RParseState × List ℚ) (raw : Str) :
    (robotsDelayCollectStep agentName p raw).1 = robotsLineStep agentName p.1 raw := rfl

/-- Invariant over the whole line fold: the parsed delay is the `max`-fold
of all collected matching crawl-delay values. -/
theorem parse_delay_invariant (agentName : Str) : ∀ (lines : List Str) (st : RParseState)
    (L : List ℚ), st.rules.delay = L.foldl max 0 →
    (lines.foldl (robotsLineStep agentName) st).rules.delay =
      ((lines.foldl (robotsDelayCollectStep agentName) (st, L)).2).foldl max 0 := by
  intro lines
  induction lines with
  | nil => intro st L h; simpa using h
  | cons raw rest ih =>
    intro st L h
    have hstep := collect_delay_step agentName st L raw h
    have hpair : robotsDelayCollectStep agentName (st, L) raw =
        (robotsLineStep agentName st raw, (robotsDelayCollectStep agentName (st, L) raw).2) := by
      exact Prod.ext (collectStep_fst agentName (st, L) raw) rfl
    rw [List.foldl_cons, List.foldl_cons, hpair]
    exact ih _ _ hstep

/-- C4: for every host, when the robots.txt fetch fails under scheme
https (no usable cache entry), `fetch_robots` retries once with scheme
http, and on final failure caches and returns the empty policy (no
disallowed prefixes, zero delay) instead of raising — the effect list
records exactly the https attempt followed by the http retry. -/
theorem claim_C4 (oracle : Str → Str → Option Str) (agentName : Str) (now : ℚ)
    (cache : RobotsCache) (host : Str)
    (h1 : cacheFind cache (chars "https", host) = none)
    (h2 : cacheFind cache (chars "http", host) = none)
    (h3 : oracle (chars "https") host = none)
    (h4 : oracle (chars "http") host = none) :
    fetch_robots oracle agentName now cache host (chars "https") =
      (emptyRules, cacheInsert cache (chars "http", host) (now, emptyRules),
       [NetEffect.robotsFetch (chars "https") host, NetEffect.robotsFetch (chars "http") host]) := by
  unfold fetch_robots fetchRobotsNoRetry
  simp [h1, h2, h3, h4]

/-- Witness for C4 at a concrete empty cache and always-failing fetch. -/
theorem claim_C4_witness :
    fetch_robots (fun _ _ => none) userAgentStr 0 [] (chars "example.com") (chars "https") =
      (emptyRules, cacheInsert [] (chars "http", chars "example.com") (0, emptyRules),
       [NetEffect.robotsFetch (chars "https") (chars "example.com"),
        NetEffect.robotsFetch (chars "http") (chars "example.com")]) :=
  claim_C4 (fun _ _ => none) userAgentStr 0 [] (chars "example.com") rfl rfl rfl rfl

/-- C6: for every crawl environment and every URL whose parsed scheme is
absent or outside the configured allow-list, `crawl_url` fails with the
invalid-scheme error and performs no network I/O (no DNS, no robots
fetch, no page fetch). -/
theorem claim_C6 (env : CrawlEnv) (u : PyUrl)
    (h : u.scheme = [] ∨ u.scheme ∉ env.allowedSchemes) :
    crawl_url env u = (.error .invalidScheme, []) := by
  unfold crawl_url validate_url_for_fetch
  rw [if_pos h]

/-- Witness for C6 at a concrete ftp URL and fully concrete environment. -/
theorem claim_C6_witness :
    crawl_url
      ⟨defaultAllowedSchemes, true, fun _ => true, fun _ _ => none, userAgentStr,
       fun _ => Except.error CrawlError.fetchFailed, ⟨id, id, id, id⟩, 0, []⟩
      ⟨chars "ftp://x/p", chars "ftp", chars "x", chars "x", chars "/p"⟩ =
      (.error .invalidScheme, []) :=
  claim_C6 _ _ (Or.inr (by decide))

/-- C7: the allowance check returns true unless some disallowed prefix is
`/` or the URL path starts with the prefix as an ordinary string prefix;
and the policy parsed from `User-agent: *` / `Disallow: /private` blocks
the path `/private/x` while allowing `/public/x`. -/
theorem claim_C7 :
    (∀ (path : Str) (rules : RobotsRules), robotsPathAllowed path rules = true ↔
      ∀ dis ∈ rules.disallow, ¬(dis = chars "/") ∧ isPrefixStr dis path = false)
  ∧ robotsPathAllowed (chars "/private/x")
      (parse_robots_text (chars "User-agent: *\nDisallow: /private") userAgentStr) = false
  ∧ robotsPathAllowed (chars "/public/x")
      (parse_robots_text (chars "User-agent: *\nDisallow: /private") userAgentStr) = true := by
  refine ⟨?_, by decide, by decide⟩
  intro path rules
  unfold robotsPathAllowed
  rw [List.all_eq_true]
  constructor
  · intro h dis hdis
    have hd := h dis hdis
    by_cases h1 : dis = chars "/"
    · rw [if_pos h1] at hd; exact absurd hd (by simp)
    · rw [if_neg h1] at hd
      by_cases h2 : isPrefixStr dis path
      · rw [if_pos h2] at hd; exact absurd hd (by simp)
      · exact ⟨h1, by revert h2; cases isPrefixStr dis path <;> simp⟩
  · intro h dis hdis
    obtain ⟨h1, h2⟩ := h dis hdis
    rw [if_neg h1, h2]
    simp

/-- The parsed delay equals the `max`-fold over all matching groups'
crawl-delay values. -/
theorem parse_robots_delay_eq (txt agentName : Str) :
    (parse_robots_text txt agentName).delay = (matchedDelays txt agentName).foldl max 0 := by
  unfold parse_robots_text matchedDelays
  exact parse_delay_invariant agentName _ _ _ rfl

/-- C8: the parsed policy's delay is the maximum (floored at the initial
0) over the crawl-delay values of all matching agent groups, not the last
one seen; in particular two matching groups with delays 2 and 5 — in
either order — yield delay 5. -/
theorem claim_C8 :
    (∀ (txt agentName : Str),
      (parse_robots_text txt agentName).delay = (matchedDelays txt agentName).foldl max 0)
  ∧ parse_robots_text (chars "User-agent: *\nCrawl-delay: 2\nUser-agent: *\nCrawl-delay: 5")
      userAgentStr = ⟨[], 5⟩
  ∧ parse_robots_text (chars "User-agent: *\nCrawl-delay: 5\nUser-agent: *\nCrawl-delay: 2")
      userAgentStr = ⟨[], 5⟩ := by
  refine ⟨parse_robots_delay_eq, ?_, ?_⟩
  · have h1 : (parse_robots_text
        (chars "User-agent: *\nCrawl-delay: 2\nUser-agent: *\nCrawl-delay: 5")
        userAgentStr).disallow = [] := by decide
    have hm : matchedDelays
        (chars "User-agent: *\nCrawl-delay: 2\nUser-agent: *\nCrawl-delay: 5")
        userAgentStr = [2, 5] := by decide
    have h2 := parse_robots_delay_eq
      (chars "User-agent: *\nCrawl-delay: 2\nUser-agent: *\nCrawl-delay: 5") userAgentStr
    rw [hm] at h2
    simp only [List.foldl_cons, List.foldl_nil] at h2
    rw [max_eq_right (by norm_num : (0:ℚ) ≤ 2), max_eq_right (by norm_num : (2:ℚ) ≤ 5)] at h2
    have heta : parse_robots_text
        (chars "User-agent: *\nCrawl-delay: 2\nUser-agent: *\nCrawl-delay: 5") userAgentStr =
        ⟨(parse_robots_text
            (chars "User-agent: *\nCrawl-delay: 2\nUser-agent: *\nCrawl-delay: 5")
            userAgentStr).disallow,
         (parse_robots_text
            (chars "User-agent: *\nCrawl-delay: 2\nUser-agent: *\nCrawl-delay: 5")
            userAgentStr).delay⟩ := rfl
    rw [heta, h1, h2]
  · have h1 : (parse_robots_text
        (chars "User-agent: *\nCrawl-delay: 5\nUser-agent: *\nCrawl-delay: 2")
        userAgentStr).disallow = [] := by decide
    have hm : matchedDelays
        (chars "User-agent: *\nCrawl-delay: 5\nUser-agent: *\nCrawl-delay: 2")
        userAgentStr = [5, 2] := by decide
    have h2 := parse_robots_delay_eq
      (chars "User-agent: *\nCrawl-delay: 5\nUser-agent: *\nCrawl-delay: 2") userAgentStr
    rw [hm] at h2
    simp only [List.foldl_cons, List.foldl_nil] at h2
    rw [max_eq_right (by norm_num : (0:ℚ) ≤ 5), max_eq_left (by norm_num : (2:ℚ) ≤ 5)] at h2
    have heta : parse_robots_text
        (chars "User-agent: *\nCrawl-delay: 5\nUser-agent: *\nCrawl-delay: 2") userAgentStr =
        ⟨(parse_robots_text
            (chars "User-agent: *\nCrawl-delay: 5\nUser-agent: *\nCrawl-delay: 2")
            userAgentStr).disallow,
         (parse_robots_text
            (chars "User-agent: *\nCrawl-delay: 5\nUser-agent: *\nCrawl-delay: 2")
            userAgentStr).delay⟩ := rfl
    rw [heta, h1, h2]

/-- C9: visible text longer than 500 characters yields a snippet that is
exactly the first 500 characters followed by the ellipsis marker; text of
at most 500 characters (including exactly 500) is kept verbatim. -/
theorem claim_C9 (text : Str) :
    (500 < text.length →
      makeSnippet text = text.take 500 ++ chars "..." ∧ (text.take 500).length = 500)
  ∧ (text.length ≤ 500 → makeSnippet text = text) := by
  constructor
  · intro h
    refine ⟨by rw [makeSnippet, if_pos h], ?_⟩
    rw [List.length_take]
    exact Nat.min_eq_left (Nat.le_of_lt h)
  · intro h
    rw [makeSnippet, if_neg (by omega)]

/-- Witness for C9 at texts of 501 and exactly 500 characters. -/
theorem claim_C9_witness :
    makeSnippet (List.replicate 501 'a') = (List.replicate 501 'a').take 500 ++ chars "..."
  ∧ makeSnippet (List.replicate 500 'a') = List.replicate 500 'a' :=
  ⟨((claim_C9 (List.replicate 501 'a')).1 (by rw [List.length_replicate]; norm_num)).1,
   (claim_C9 (List.replicate 500 'a')).2 (by rw [List.length_replicate])⟩

/-- C10: for every URL with an allow-listed scheme whose parsed hostname
is empty, the private-network check is skipped entirely — for every
possible `host_is_private` oracle the validator succeeds with no DNS
effect — provided the path does not end in a media extension. -/
theorem claim_C10 (hostPrivate : Str → Bool) (u : PyUrl)
    (h1 : u.scheme ∈ defaultAllowedSchemes) (h2 : u.hostname = [])
    (h3 : is_media_url u.path = false) :
    validate_url_for_fetch defaultAllowedSchemes true hostPrivate u = (.ok (), []) := by
  have hs : ¬(u.scheme = [] ∨ u.scheme ∉ defaultAllowedSchemes) := by
    push_neg
    refine ⟨?_, h1⟩
    intro he
    rw [he] at h1
    exact absurd h1 (by decide)
  unfold validate_url_for_fetch
  rw [if_neg hs,
    if_neg (show ¬((true : Bool) = true ∧ ¬u.hostname = []) from fun hc => hc.2 h2),
    if_neg (show ¬(is_media_url u.path = true) from by rw [h3]; exact Bool.false_ne_true)]

/-- Witness for C10 at a concrete hostless http URL with an oracle that
declares every host private. -/
theorem claim_C10_witness :
    validate_url_for_fetch defaultAllowedSchemes true (fun _ => true)
      ⟨chars "http:///x", chars "http", [], [], chars "/x"⟩ = (.ok (), []) :=
  claim_C10 (fun _ => true) _ (by decide) rfl (by decide)

/-- Counterexample to C2 as stated: two records with equal score and
different timestamps come back oldest-first from the full-scan path
(`sort(key=lambda x: (-x[0], x[1]['crawled_at'] or ""))` is ascending in
the timestamp), so the adjacent pair violates the claimed
descending-timestamp tie-break. -/
theorem claim_C2_counterexample :
    fullScanResults [chars "apple"] [exRow1, exRow2] 50 =
      [toResult (4, exRow1), toResult (4, exRow2)]
  ∧ ¬ specTieOrder (toResult (4, exRow1)) (toResult (4, exRow2)) := by
  constructor
  · decide
  · unfold specTieOrder
    decide

/-- C2 (amended): every candidate sequence produced by the heuristic
scorer — degraded-index and full-scan paths — is sorted by descending
score with ties broken by ascending crawl timestamp (oldest first), a
missing timestamp keyed as the empty string and therefore sorting first
among equal scores. -/
theorem claim_C2 (terms : List Str) (rows : List SiteRow) (limit : Nat) :
    (degradedPathResults terms rows limit).Pairwise codeTieOrder
  ∧ (fullScanResults terms rows limit).Pairwise codeTieOrder :=
  ⟨heuristicRank_sorted terms rows limit, heuristicRank_sorted (terms.map lowerStr) rows limit⟩

/-- Counterexample to C3 as stated: a title containing the term exactly
once scores 4 (base 3 plus the occurrence count), not the claimed 3; and
in the degraded-index path the term is not lower-cased, so the query
`Apple` scores 0 against the lower-cased fields and the record is
excluded, while the claim's case-insensitive scorer gives it 3. -/
theorem claim_C3_counterexample :
    scoreRow [chars "apple"] exRowA = 4
  ∧ claimScore [chars "apple"] exRowA = 3
  ∧ (fullScanResults [chars "apple"] [exRowA] 50).map SearchResult.score = [4]
  ∧ degradedPathResults [chars "Apple"] [exRowA] 50 = []
  ∧ claimScore [chars "Apple"] exRowA = 3 := by
  refine ⟨by decide, by decide, by decide, by decide, by decide⟩

/-- C3 (amended): the scorer awards, per term and field, base weight
(title 3, keywords 2, description 2, snippet 1, url 1) plus 1 per
occurrence including the first, comparing the term as given against the
lower-cased field — the full-scan path lower-cases its terms first, the
degraded-index path does not — and keeps exactly the rows with positive
total score. -/
theorem claim_C3 (qtoks : List Str) (r : SiteRow) (terms : List Str)
    (rows : List SiteRow) (limit : Nat) :
    scoreRow qtoks r = codeScoreFormula qtoks r
  ∧ scanCandidates qtoks rows =
      (rows.map (fun r2 => (scoreRow qtoks r2, r2))).filter (fun p => decide (0 < p.1))
  ∧ degradedPathResults terms rows limit = (heuristicRank terms rows limit).map toResult
  ∧ fullScanResults terms rows limit =
      (heuristicRank (terms.map lowerStr) rows limit).map toResult :=
  ⟨scoreRow_eq_formula qtoks r, scanCandidates_eq qtoks rows, rfl, rfl⟩

/-- C1 at its failing input (code bug): after the admin deletes the one
stored record, the record is gone and every search tier returns no
matches, but the FTS index still holds the posting group of the deleted
rowid — `DELETE FROM sites_fts WHERE url=?` matches nothing once the
content row is deleted, so the orphan index entry the invariant forbids
remains, and a raw MATCH still yields the dead rowid 1. -/
theorem claim_C1 :
    dbAfterDelete.sites = []
  ∧ (∀ (b1 b2 : Bool) (bm25 : Nat → ℚ),
      search_sites b1 b2 bm25 dbAfterDelete (chars "zebraword") 50 = [])
  ∧ dbAfterDelete.fts = [(1, ⟨chars "http://a.com/x", chars "zebraword", [], [], []⟩)]
  ∧ ftsMatchRowids dbAfterDelete.fts [chars "zebraword"] = [1] := by
  refine ⟨by decide, ?_, by decide, by decide⟩
  intro b1 b2 bm25
  cases b1 <;> cases b2 <;> rfl

/-- C5 at its failing input (code bug): upserting the same URL twice with
different titles leaves exactly one `sites` row carrying the latest
derived fields (full overwrite, no duplicate row), but the FTS index
keeps the first crawl's posting group alongside the new one — the
`DELETE FROM sites_fts WHERE rowid=?` runs after the content row was
updated, so it un-indexes the new values instead of the old — and a
search for a term unique to the overwritten title still returns the
record through the accelerated path. -/
theorem claim_C5 :
    dbAfterRecrawl.sites =
      [⟨1, chars "http://a.com/x", chars "newword", [], [], [],
        some (chars "2024-02-02T00:00:00Z")⟩]
  ∧ dbAfterRecrawl.fts =
      [(1, ⟨chars "http://a.com/x", chars "zebraword", [], [], []⟩),
       (1, ⟨chars "http://a.com/x", chars "newword", [], [], []⟩)]
  ∧ (∀ bm25 : Nat → ℚ,
      (search_sites true true bm25 dbAfterRecrawl (chars "zebraword") 50).map
        SearchResult.url = [chars "http://a.com/x"]) := by
  refine ⟨by decide, by decide, ?_⟩
  intro bm25
  rfl
